import Mathlib

/-!
Shallow embedding of `src/usr/share/opensensecam/worker.py` (the
"opensensecam" worker process) together with proofs settling the
specification claims about it.

Python floats are modelled as exact rationals (`ℚ`); Python `dict`
values as Lean structures; fallible Python code (code that can raise)
as `Option`/`Except`-valued functions.  Ambient global state read by a
function (the module-level `gps` object, `GPS_AVAILABLE`, the wall
clock) is passed as an explicit argument.
-/

namespace OpenSenseCam

/-! ## RationalAngleCodec: `_rat` and `_deg_to_dms` (worker.py lines 83-93)

`_rat(x, max_den)` is `Fraction(x).limit_denominator(max_den)` returned
as a `(numerator, denominator)` pair.  `Fraction.limit_denominator` is
embedded faithfully from CPython's `fractions.py`:

    if max_denominator < 1: raise ValueError
    if self._denominator <= max_denominator: return Fraction(self)
    p0, q0, p1, q1 = 0, 1, 1, 0
    n, d = self._numerator, self._denominator
    while True:
        a = n//d
        q2 = q0+a*q1
        if q2 > max_denominator: break
        p0, q0, p1, q1 = p1, q1, p0+a*p1, q2
        n, d = d, n-a*d
    k = (max_denominator-q0)//q1
    bound1 = Fraction(p0+k*p1, q0+k*q1)
    bound2 = Fraction(p1, q1)
    if abs(bound2 - self) <= abs(bound1 - self): return bound2
    else: return bound1

The first loop iteration always executes its update (its `q2` is `1`,
and `1 ≤ max_denominator` on this branch), so it is unrolled into
`limit_denominator` below and the remaining iterations run on
nonnegative `n`, `d`.  A `none` result marks a Python exception
(`ValueError` for a bound below 1, `ZeroDivisionError` for `n//d` with
`d = 0`).  The loop variable `d` strictly decreases, so running the
loop on fuel `d + 1` is exhaustive; fuel exhaustion also returns
`none`, and the correctness theorem shows `none` is never produced for
a positive bound. -/

/-- One rational as Python's `Fraction`/piexif store it: a numerator and
a positive denominator. -/
abbrev RatPair := ℤ × ℕ

/-- The `while True` loop of `Fraction.limit_denominator`, after its first
iteration has been unrolled (so `n`, `d`, `q0`, `q1` are nonnegative).
Returns the loop state `(p0, q0, p1, q1, n, d)` at `break`. -/
def ldLoopF (N : ℕ) : ℕ → ℤ → ℕ → ℤ → ℕ → ℕ → ℕ → Option (ℤ × ℕ × ℤ × ℕ × ℕ × ℕ)
  | 0, _, _, _, _, _, _ => none
  | fuel + 1, p0, q0, p1, q1, n, d =>
    if d = 0 then none
    else
      let a := n / d
      let q2 := q0 + a * q1
      if N < q2 then some (p0, q0, p1, q1, n, d)
      else ldLoopF N fuel p1 q1 (p0 + (a : ℤ) * p1) q2 d (n % d)

/-- `Fraction.limit_denominator(N)` on an exact rational, `none` marking a
raised Python exception. -/
def limit_denominator (x : ℚ) (N : ℕ) : Option ℚ :=
  if N = 0 then none
  else if x.den ≤ N then some x
  else
    match ldLoopF N ((x.num - ⌊x⌋ * x.den).toNat + 1) 1 0 ⌊x⌋ 1 x.den
        ((x.num - ⌊x⌋ * x.den).toNat) with
    | none => none
    | some (p0, q0, p1, q1, _, _) =>
      if |(p1 : ℚ) / ((q1 : ℕ) : ℚ) - x| ≤
          |((p0 + (((N - q0) / q1 : ℕ) : ℤ) * p1 : ℤ) : ℚ)
            / ((q0 + ((N - q0) / q1) * q1 : ℕ) : ℚ) - x|
      then some ((p1 : ℚ) / ((q1 : ℕ) : ℚ))
      else some (((p0 + (((N - q0) / q1 : ℕ) : ℤ) * p1 : ℤ) : ℚ)
            / ((q0 + ((N - q0) / q1) * q1 : ℕ) : ℚ))

/-- `_rat(x, max_den=1_000_000)` from worker.py line 83: the
`limit_denominator` result as a `(numerator, denominator)` pair. -/
def _rat (x : ℚ) (maxDen : ℕ := 1000000) : Option RatPair :=
  (limit_denominator x maxDen).map fun r => (r.num, r.den)

/-- `_deg_to_dms(dd)` from worker.py line 87.  `int()` truncation on the
nonnegative values `dd` (after `abs`) and `m_float` is `⌊·⌋`. -/
def _deg_to_dms (dd : ℚ) : Option (RatPair × RatPair × RatPair) := do
  let da := |dd|
  let d : ℤ := ⌊da⌋
  let m_float := (da - d) * 60
  let m : ℤ := ⌊m_float⌋
  let s := (m_float - m) * 60
  let rd ← _rat (d : ℚ)
  let rm ← _rat (m : ℚ)
  let rs ← _rat s
  return (rd, rm, rs)

/-! ## Shared state: `SharedState` (worker.py lines 157-173)

`__init__` sets `self._latest_fix = None`.  `set_fix` runs, under the
lock,

    if self._latest_fix.fix_quality <= fix_dict.fix_quality:
        print("... Skipping.. ")
    else:
        self._latest_fix = dict(fix_dict)

so on a registry holding `None` the attribute access
`self._latest_fix.fix_quality` raises `AttributeError`, and on a held
fix the candidate is stored only when its quality is strictly below
the held quality.  `get_fix` returns `dict(self._latest_fix) if
self._latest_fix else None`; copying a dict is the identity in a value
model. -/

/-- A Python exception kind, for fallible embedded code. -/
inductive PyErr
  | attributeError
  | typeError
  | valueError
deriving DecidableEq

deriving instance DecidableEq for Except

/-- One positioning fix as held by the registry: its quality code plus a
payload distinguishing it from other fixes of the same quality. -/
structure GpsFix where
  fix_quality : ℤ
  payload : ℕ
deriving DecidableEq

/-- The registry's `_latest_fix` slot: `None` or a held fix. -/
abbrev RegistryState := Option GpsFix

/-- The state produced by `SharedState.__init__`: `_latest_fix = None`. -/
def SharedState.init : RegistryState := none

/-- `SharedState.set_fix` (worker.py line 162). -/
def set_fix (st : RegistryState) (c : GpsFix) : Except PyErr RegistryState :=
  match st with
  | none => .error .attributeError
  | some held =>
    if held.fix_quality ≤ c.fix_quality then .ok (some held) else .ok (some c)

/-- `SharedState.get_fix` (worker.py line 171). -/
def get_fix (st : RegistryState) : Option GpsFix := st

/-! ## `make_exif` (worker.py lines 110-154)

The function receives the capture timestamp `now_local_dt` and a `fix`
argument, but its body never reads `fix`: when `GPS_AVAILABLE` it
reads the module-level `gps` object and the ambient wall clock
(`datetime.now(timezone.utc)`) instead.  Those ambient reads are
passed explicitly as a `Globals` value.  Timestamps are modelled
structurally (the `strftime` renderings carry exactly the fields
below). -/

/-- A local capture timestamp (the `strftime('%Y:%m:%d %H:%M:%S')`
rendering of `now_local_dt`). -/
structure DateTimeVal where
  year : ℕ
  month : ℕ
  day : ℕ
  hour : ℕ
  minute : ℕ
  second : ℕ
deriving DecidableEq

/-- A UTC calendar date (the `strftime('%Y:%m:%d')` rendering used for
`GPSDateStamp`). -/
structure DateVal where
  year : ℕ
  month : ℕ
  day : ℕ
deriving DecidableEq

/-- The `tm_hour`/`tm_min`/`tm_sec` fields of `gps.timestamp_utc`. -/
structure TimeTriple where
  h : ℕ
  m : ℕ
  s : ℕ
deriving DecidableEq

/-- The `"0th"` IFD tags written by `make_exif`. -/
structure ZerothIFD where
  dateTime : Option DateTimeVal
  make : Option String
  model : Option String
  software : Option String
deriving DecidableEq

/-- The `"Exif"` IFD tags written by `make_exif`. -/
structure ExifSubIFD where
  dateTimeOriginal : Option DateTimeVal
  dateTimeDigitized : Option DateTimeVal
  userComment : Option String
deriving DecidableEq

/-- The `"GPS"` IFD tags written by `make_exif` (the positioning group). -/
structure GPSIFD where
  latitudeRef : Option String
  latitude : Option (RatPair × RatPair × RatPair)
  longitudeRef : Option String
  longitude : Option (RatPair × RatPair × RatPair)
  altitudeRef : Option ℕ
  altitude : Option RatPair
  dateStamp : Option DateVal
  timeStamp : Option (RatPair × RatPair × RatPair)
deriving DecidableEq

/-- The empty positioning group: `exif["GPS"] == {}`. -/
def emptyGPS : GPSIFD := ⟨none, none, none, none, none, none, none, none⟩

/-- The exif dict assembled by `make_exif` (the `"1st"` and `"Interop"`
groups are always left empty and are not modelled). -/
structure ExifDict where
  zeroth : ZerothIFD
  exifSub : ExifSubIFD
  gps : GPSIFD
deriving DecidableEq

/-- The state of the module-level `gps` receiver object at tag-build
time (fields read by `make_exif`). -/
structure GpsReading where
  latitude : Option ℚ
  longitude : Option ℚ
  altitude_m : Option ℚ
  timestamp_utc : Option TimeTriple
deriving DecidableEq

/-- Ambient global state read by `make_exif`: the `GPS_AVAILABLE` flag,
the module-level `gps` object, and the wall clock's UTC date at the
`datetime.now(timezone.utc)` call on line 150. -/
structure Globals where
  gpsAvailable : Bool
  gps : GpsReading
  nowUtc : DateVal
deriving DecidableEq

/-- Lift an `Option` into `Except`, the `none` case raising `e` (models a
Python expression that raises on a missing value). -/
def exceptOf {α : Type} (e : PyErr) : Option α → Except PyErr α
  | some a => .ok a
  | none => .error e

/-- The exif dict built by lines 113-130: datetime and camera-info tags,
empty GPS group. -/
def baseExif (now_local : DateTimeVal) : ExifDict :=
  { zeroth := { dateTime := some now_local, make := some "Raspberry Pi",
                model := some "Camera Module 3", software := some "OpenSenseCam Script" }
    exifSub := { dateTimeOriginal := some now_local, dateTimeDigitized := some now_local,
                 userComment := some "ASCII json project OpenSenseCam" }
    gps := emptyGPS }

/-- `make_exif(now_local_dt, fix)` (worker.py line 110), with the ambient
global state explicit.  The `fix` parameter is kept because the source
declares it, although the body never reads it.  Error values mark the
Python exceptions the corresponding lines can raise: comparing `None`
longitude (`lon >= 0`), reading `.tm_hour` of a `None`
`gps.timestamp_utc`, and `_rat` on a bound below 1. -/
def make_exif (now_local : DateTimeVal) (fix : Option GpsFix) (g : Globals) :
    Except PyErr ExifDict :=
  let base := baseExif now_local
  if g.gpsAvailable then
    match g.gps.latitude with
    | none => .ok base
    | some lat => do
      let lon ← exceptOf .typeError g.gps.longitude
      let latDms ← exceptOf .valueError (_deg_to_dms lat)
      let lonDms ← exceptOf .valueError (_deg_to_dms lon)
      let gpsA : GPSIFD :=
        { emptyGPS with
          latitudeRef := some (if 0 ≤ lat then "N" else "S")
          latitude := some latDms
          longitudeRef := some (if 0 ≤ lon then "E" else "W")
          longitude := some lonDms }
      let gpsB ← match g.gps.altitude_m with
        | none => pure gpsA
        | some alt => do
          let ra ← exceptOf .valueError (_rat |alt| 1000)
          pure { gpsA with
                 altitudeRef := some (if 0 ≤ alt then 0 else 1)
                 altitude := some ra }
      let t ← exceptOf .attributeError g.gps.timestamp_utc
      let rh ← exceptOf .valueError (_rat (t.h : ℚ))
      let rm ← exceptOf .valueError (_rat (t.m : ℚ))
      let rs ← exceptOf .valueError (_rat (t.s : ℚ))
      return { base with
               gps := { gpsB with
                        dateStamp := some g.nowUtc
                        timeStamp := some (rh, rm, rs) } }
  else
    .ok base

/-! ## `CameraPoller.run` (worker.py lines 278-311)

Each loop iteration (entered whenever the stop event is not yet set at
the loop head) takes a capture timestamp, reads the registry, and then
either captures and saves a photo (when `PICAMERA2` holds and
`self._pc2` is not `None`) or prints `"[Camera] No camera found.."`;
in both cases it then executes `self._stop.wait(self.interval)` — a
wait for the full configured interval, with no subtraction of the
elapsed capture time — and returns to the loop head.  Nothing in the
body breaks out of the loop. -/

/-- The observable event of one capture-loop iteration. -/
inductive CamEvent
  | saved
  | noCameraLog
deriving DecidableEq

/-- The event produced by one iteration body, by the `if PICAMERA2 and
self._pc2 is not None` branch. -/
def cameraIteration (hasCam : Bool) : CamEvent :=
  if hasCam then .saved else .noCameraLog

/-- The events of running `CameraPoller.run` through `n` iterations whose
loop-head stop check found the stop event unset (the loop exits only
via that check). -/
def cameraRunEvents (hasCam : Bool) : ℕ → List CamEvent
  | 0 => []
  | n + 1 => cameraIteration hasCam :: cameraRunEvents hasCam n

/-- The duration of the end-of-cycle sleep, from
`self._stop.wait(self.interval)` on line 311: the full configured
interval.  The elapsed capture time of the cycle is passed so the
dependence (none) can be stated, mirroring the claim's formula. -/
def cycleSleep (interval elapsed : ℚ) : ℚ := interval

/-- Start time of the `n`-th capture-loop cycle, given the configured
interval and each cycle's capture cost `elapsed i`: a cycle runs its
body (costing `elapsed n`) and then sleeps `cycleSleep`. -/
def cycleStart (interval : ℚ) (elapsed : ℕ → ℚ) : ℕ → ℚ
  | 0 => 0
  | n + 1 => cycleStart interval elapsed n + elapsed n + cycleSleep interval (elapsed n)

/-! ## Invariant of the `limit_denominator` loop

`LdInv x N p0 q0 p1 q1 n d` holds of every loop state reached while
running `limit_denominator` on `x` with bound `N` (after the unrolled
first iteration): the convergent pair is unimodular, the loop state
still represents `x`, the Euclid pair decreases, and the convergent
denominators are ordered and bounded by `N`. -/
def LdInv (x : ℚ) (N : ℕ) (p0 : ℤ) (q0 : ℕ) (p1 : ℤ) (q1 : ℕ) (n d : ℕ) : Prop :=
  (p1 * q0 - p0 * q1 = 1 ∨ p1 * q0 - p0 * q1 = -1)
  ∧ x * ((q1 : ℚ) * n + (q0 : ℚ) * d) = (p1 : ℚ) * n + (p0 : ℚ) * d
  ∧ 0 < n ∧ d < n ∧ q0 ≤ q1 ∧ 1 ≤ q1 ∧ q1 ≤ N

/-- The seconds remainder of the DMS decomposition of `|x|`: what is
left of `(|x| - ⌊|x|⌋) * 60` after removing its whole minutes, scaled
to seconds. -/
def secondsOf (x : ℚ) : ℚ :=
  ((|x| - (⌊|x|⌋ : ℚ)) * 60 - (⌊(|x| - (⌊|x|⌋ : ℚ)) * 60⌋ : ℚ)) * 60

end OpenSenseCam

-- Batteries marks the `ℚ` field operations `@[irreducible]`; concrete
-- evaluations by `decide` need them reducible again.
unseal Rat.add Rat.sub Rat.mul Rat.inv Rat.ofScientific

namespace OpenSenseCam

/-! ## Lemmas: best-approximation property of the embedded
`limit_denominator` -/

/-- Farey mediant bound: a rational strictly between two fractions whose
cross-determinant is `1` has denominator at least the sum of theirs. -/
theorem farey_den_bound (uL uR : ℤ) (vL vR : ℕ) (hvL : 0 < vL) (hvR : 0 < vR)
    (hdet : uR * (vL : ℤ) - uL * (vR : ℤ) = 1) (y : ℚ)
    (h1 : (uL : ℚ) / (vL : ℚ) < y) (h2 : y < (uR : ℚ) / (vR : ℚ)) :
    vL + vR ≤ y.den := by
  have hbQ : (0 : ℚ) < (y.den : ℚ) := by exact_mod_cast y.pos
  have hvLQ : (0 : ℚ) < (vL : ℚ) := by exact_mod_cast hvL
  have hvRQ : (0 : ℚ) < (vR : ℚ) := by exact_mod_cast hvR
  have hy : y = (y.num : ℚ) / (y.den : ℚ) := (Rat.num_div_den y).symm
  rw [hy, div_lt_div_iff hvLQ hbQ] at h1
  rw [hy, div_lt_div_iff hbQ hvRQ] at h2
  have h1' : uL * (y.den : ℤ) < y.num * (vL : ℤ) := by exact_mod_cast h1
  have h2' : y.num * (vR : ℤ) < uR * (y.den : ℤ) := by exact_mod_cast h2
  have s1 : 1 ≤ y.num * (vL : ℤ) - uL * (y.den : ℤ) := by omega
  have s2 : 1 ≤ uR * (y.den : ℤ) - y.num * (vR : ℤ) := by omega
  have key : (y.den : ℤ) =
      (vL : ℤ) * (uR * (y.den : ℤ) - y.num * (vR : ℤ))
        + (vR : ℤ) * (y.num * (vL : ℤ) - uL * (y.den : ℤ)) := by
    linear_combination (-(y.den : ℤ)) * hdet
  have hL : (vL : ℤ) * 1 ≤ (vL : ℤ) * (uR * (y.den : ℤ) - y.num * (vR : ℤ)) :=
    mul_le_mul_of_nonneg_left s2 (by exact_mod_cast Nat.zero_le vL)
  have hR : (vR : ℤ) * 1 ≤ (vR : ℤ) * (y.num * (vL : ℤ) - uL * (y.den : ℤ)) :=
    mul_le_mul_of_nonneg_left s1 (by exact_mod_cast Nat.zero_le vR)
  have : (vL : ℤ) + (vR : ℤ) ≤ (y.den : ℤ) := by omega
  exact_mod_cast this

/-- If `x` sits in the closed interval between two unimodular fractions
whose denominators sum beyond `N`, then every rational with
denominator at most `N` is at least as far from `x` as the nearer
endpoint. -/
theorem closest_of_bracket (x : ℚ) (N : ℕ) (uL uR : ℤ) (vL vR : ℕ)
    (hvL : 0 < vL) (hvR : 0 < vR) (hsum : N < vL + vR)
    (hdet : uR * (vL : ℤ) - uL * (vR : ℤ) = 1)
    (hL : (uL : ℚ) / (vL : ℚ) ≤ x) (hR : x ≤ (uR : ℚ) / (vR : ℚ)) :
    ∀ y : ℚ, y.den ≤ N →
      min |x - (uL : ℚ) / (vL : ℚ)| |x - (uR : ℚ) / (vR : ℚ)| ≤ |x - y| := by
  intro y hy
  rcases le_or_lt y ((uL : ℚ) / (vL : ℚ)) with hc | hc
  · have h1 : |x - (uL : ℚ) / (vL : ℚ)| = x - (uL : ℚ) / (vL : ℚ) :=
      abs_of_nonneg (by linarith)
    have h2 : x - y ≤ |x - y| := le_abs_self _
    calc min |x - (uL : ℚ) / (vL : ℚ)| |x - (uR : ℚ) / (vR : ℚ)|
        ≤ |x - (uL : ℚ) / (vL : ℚ)| := min_le_left _ _
      _ = x - (uL : ℚ) / (vL : ℚ) := h1
      _ ≤ x - y := by linarith
      _ ≤ |x - y| := h2
  · rcases lt_or_le y ((uR : ℚ) / (vR : ℚ)) with hc' | hc'
    · exact absurd (farey_den_bound uL uR vL vR hvL hvR hdet y hc hc') (by omega)
    · have h1 : |x - (uR : ℚ) / (vR : ℚ)| = (uR : ℚ) / (vR : ℚ) - x := by
        rw [abs_sub_comm]; exact abs_of_nonneg (by linarith)
      have h2 : y - x ≤ |x - y| := by
        rw [abs_sub_comm]; exact le_abs_self _
      calc min |x - (uL : ℚ) / (vL : ℚ)| |x - (uR : ℚ) / (vR : ℚ)|
          ≤ |x - (uR : ℚ) / (vR : ℚ)| := min_le_right _ _
        _ = (uR : ℚ) / (vR : ℚ) - x := h1
        _ ≤ y - x := by linarith
        _ ≤ |x - y| := h2

/-- The state after the unrolled first iteration of the
`limit_denominator` loop satisfies the loop invariant. -/
theorem ldInv_init (x : ℚ) (N : ℕ) (hN : 1 ≤ N) (hden : N < x.den) :
    LdInv x N 1 0 ⌊x⌋ 1 x.den (x.num - ⌊x⌋ * x.den).toNat := by
  have hfl : (⌊x⌋ : ℚ) ≤ x := Int.floor_le x
  have hfl' : x < (⌊x⌋ : ℚ) + 1 := Int.lt_floor_add_one x
  have hdenQ : (0 : ℚ) < (x.den : ℚ) := by exact_mod_cast x.pos
  have hnum : (x.num : ℚ) = x * (x.den : ℚ) := by
    have h := Rat.num_div_den x
    rw [div_eq_iff (ne_of_gt hdenQ)] at h
    exact h
  have hr0lo : 0 ≤ x.num - ⌊x⌋ * x.den := by
    have : (⌊x⌋ : ℚ) * (x.den : ℚ) ≤ (x.num : ℚ) := by
      rw [hnum]; exact mul_le_mul_of_nonneg_right hfl (le_of_lt hdenQ)
    have h' : (⌊x⌋ : ℚ) * (x.den : ℚ) = ((⌊x⌋ * x.den : ℤ) : ℚ) := by push_cast; ring
    rw [h'] at this
    exact_mod_cast sub_nonneg.mpr this
  have hr0hi : x.num - ⌊x⌋ * x.den < x.den := by
    have : (x.num : ℚ) < ((⌊x⌋ : ℚ) + 1) * (x.den : ℚ) := by
      rw [hnum]; exact mul_lt_mul_of_pos_right hfl' hdenQ
    have h' : ((⌊x⌋ : ℚ) + 1) * (x.den : ℚ) = (((⌊x⌋ + 1) * x.den : ℤ) : ℚ) := by
      push_cast; ring
    rw [h'] at this
    have h2 : x.num < (⌊x⌋ + 1) * x.den := by exact_mod_cast this
    have h3 : (⌊x⌋ + 1) * (x.den : ℤ) = ⌊x⌋ * x.den + x.den := by ring
    omega
  refine ⟨Or.inr (by push_cast; ring), ?_, x.pos, ?_, Nat.zero_le 1, le_refl 1, hN⟩
  · have htn : ((x.num - ⌊x⌋ * x.den).toNat : ℚ) = (x.num : ℚ) - (⌊x⌋ : ℚ) * (x.den : ℚ) := by
      have := Int.toNat_of_nonneg hr0lo
      have h2 : (((x.num - ⌊x⌋ * x.den).toNat : ℤ) : ℚ) = ((x.num - ⌊x⌋ * x.den : ℤ) : ℚ) := by
        exact_mod_cast congrArg (fun z : ℤ => (z : ℚ)) this
      push_cast at h2 ⊢
      linarith [h2]
    rw [htn]
    push_cast
    linear_combination -hnum
  · have : ((x.num - ⌊x⌋ * x.den).toNat : ℤ) < (x.den : ℤ) := by
      rw [Int.toNat_of_nonneg hr0lo]; exact hr0hi
    exact_mod_cast this

/-- One non-breaking iteration of the `limit_denominator` loop preserves
the loop invariant. -/
theorem ldInv_step (x : ℚ) (N : ℕ) (p0 : ℤ) (q0 : ℕ) (p1 : ℤ) (q1 : ℕ) (n d a : ℕ)
    (hinv : LdInv x N p0 q0 p1 q1 n d) (hd : d ≠ 0) (ha : a = n / d)
    (hq2 : q0 + a * q1 ≤ N) :
    LdInv x N p1 q1 (p0 + (a : ℤ) * p1) (q0 + a * q1) d (n % d) := by
  obtain ⟨hdet, hval, hn, hdn, hq01, hq1, hq1N⟩ := hinv
  have hdpos : 0 < d := Nat.pos_of_ne_zero hd
  have ha1 : 1 ≤ a := by
    rw [ha]; exact (Nat.one_le_div_iff hdpos).mpr (le_of_lt hdn)
  have hmod : ((n % d : ℕ) : ℚ) = (n : ℚ) - (d : ℚ) * (a : ℚ) := by
    have h0 := Nat.div_add_mod n d
    rw [← ha] at h0
    have h2 : ((d * a + n % d : ℕ) : ℚ) = (n : ℚ) := by exact_mod_cast h0
    push_cast at h2
    linarith
  have hmul : q1 ≤ a * q1 := Nat.le_mul_of_pos_left q1 ha1
  refine ⟨?_, ?_, hdpos, Nat.mod_lt n hdpos, by omega, by omega, hq2⟩
  · rcases hdet with h | h
    · right; push_cast; linear_combination -h
    · left; push_cast; linear_combination -h
  · push_cast
    linear_combination hval + (x * (q1 : ℚ) - (p1 : ℚ)) * hmod

/-- On any state satisfying the loop invariant (for an `x` whose
denominator exceeds the bound), the `limit_denominator` loop runs to
its `break` without raising, and the break state satisfies the
invariant together with the break condition. -/
theorem ldLoopF_spec (x : ℚ) (N : ℕ) (hden : N < x.den) :
    ∀ fuel p0 q0 p1 q1 n d, d < fuel → LdInv x N p0 q0 p1 q1 n d →
    ∃ P0 Q0 P1 Q1 n' d',
      ldLoopF N fuel p0 q0 p1 q1 n d = some (P0, Q0, P1, Q1, n', d') ∧
      LdInv x N P0 Q0 P1 Q1 n' d' ∧ 0 < d' ∧ N < Q0 + (n' / d') * Q1 := by
  intro fuel
  induction fuel with
  | zero => intro p0 q0 p1 q1 n d hlt; exact absurd hlt (Nat.not_lt_zero d)
  | succ fuel ih =>
    intro p0 q0 p1 q1 n d hlt hinv
    have hdne : d ≠ 0 := by
      intro hd0
      obtain ⟨hdet, hval, hn, hdn, hq01, hq1, hq1N⟩ := hinv
      subst hd0
      have hnQ : ((n : ℕ) : ℚ) ≠ 0 := by
        have : (0 : ℚ) < (n : ℚ) := by exact_mod_cast hn
        exact ne_of_gt this
      have hq1Q : ((q1 : ℕ) : ℚ) ≠ 0 := by
        have : (0 : ℚ) < (q1 : ℚ) := by exact_mod_cast hq1
        exact ne_of_gt this
      have hxq : x * (q1 : ℚ) = (p1 : ℚ) := by
        have h0 : (x * (q1 : ℚ) - (p1 : ℚ)) * (n : ℚ) = 0 := by
          push_cast at hval
          linear_combination hval
        rcases mul_eq_zero.mp h0 with h | h
        · linarith [sub_eq_zero.mp h]
        · exact absurd h hnQ
      have hx : x = (p1 : ℚ) / (q1 : ℚ) := by
        rw [← hxq]
        field_simp
      have hdvd : (x.den : ℤ) ∣ ((q1 : ℕ) : ℤ) := by
        have h := Rat.den_dvd p1 ((q1 : ℕ) : ℤ)
        rw [Rat.divInt_eq_div] at h
        have hc : (((q1 : ℕ) : ℤ) : ℚ) = ((q1 : ℕ) : ℚ) := by push_cast; ring
        rw [hc, ← hx] at h
        exact h
      have : x.den ∣ q1 := Int.ofNat_dvd.mp hdvd
      have := Nat.le_of_dvd (by omega) this
      omega
    rw [ldLoopF]
    simp only [hdne, if_false]
    by_cases hbr : N < q0 + n / d * q1
    · refine ⟨p0, q0, p1, q1, n, d, ?_, hinv, Nat.pos_of_ne_zero hdne, hbr⟩
      simp [hbr]
    · push_neg at hbr
      have hstep := ldInv_step x N p0 q0 p1 q1 n d (n / d) hinv hdne rfl hbr
      have hdlt : n % d < fuel := by
        have := Nat.mod_lt n (Nat.pos_of_ne_zero hdne)
        omega
      obtain ⟨P0, Q0, P1, Q1, n', d', heq, h1, h2, h3⟩ :=
        ih p1 q1 (p0 + ((n / d : ℕ) : ℤ) * p1) (q0 + n / d * q1) d (n % d) hdlt hstep
      refine ⟨P0, Q0, P1, Q1, n', d', ?_, h1, h2, h3⟩
      simpa [hbr, Nat.not_lt.mpr hbr] using heq

/-- The reduced denominator of `p / q` is at most `q`. -/
theorem den_div_le (p : ℤ) (q : ℕ) (hq : 0 < q) : ((p : ℚ) / ((q : ℕ) : ℚ)).den ≤ q := by
  have h := Rat.den_dvd p ((q : ℕ) : ℤ)
  rw [Rat.divInt_eq_div] at h
  have hc : (((q : ℕ) : ℤ) : ℚ) = ((q : ℕ) : ℚ) := by push_cast; ring
  rw [hc] at h
  exact Nat.le_of_dvd hq (Int.ofNat_dvd.mp h)

/-- At the break state of the `limit_denominator` loop, the two
candidates `bound1` and `bound2` have denominators within the bound
and bracket `x`, and every rational with denominator within the bound
is at least as far from `x` as the nearer of the two. -/
theorem ld_break_closest (x : ℚ) (N : ℕ) (P0 : ℤ) (Q0 : ℕ) (P1 : ℤ) (Q1 : ℕ) (n d : ℕ)
    (hinv : LdInv x N P0 Q0 P1 Q1 n d) (hd : 0 < d) (hbrk : N < Q0 + (n / d) * Q1) :
    (((P0 + (((N - Q0) / Q1 : ℕ) : ℤ) * P1 : ℤ) : ℚ)
        / ((Q0 + ((N - Q0) / Q1) * Q1 : ℕ) : ℚ)).den ≤ N
    ∧ ((P1 : ℚ) / ((Q1 : ℕ) : ℚ)).den ≤ N
    ∧ ∀ y : ℚ, y.den ≤ N →
        min |x - ((P0 + (((N - Q0) / Q1 : ℕ) : ℤ) * P1 : ℤ) : ℚ)
              / ((Q0 + ((N - Q0) / Q1) * Q1 : ℕ) : ℚ)|
            |x - (P1 : ℚ) / ((Q1 : ℕ) : ℚ)| ≤ |x - y| := by
  obtain ⟨hdet, hval, hn, hdn, hq01, hq1, hq1N⟩ := hinv
  -- arithmetic facts about k, a, n, d
  have hdm := Nat.div_add_mod (N - Q0) Q1
  rw [Nat.mul_comm Q1 ((N - Q0) / Q1)] at hdm
  have hmlt : (N - Q0) % Q1 < Q1 := Nat.mod_lt _ (by omega)
  set a := n / d with ha
  set k := (N - Q0) / Q1 with hk
  have hDk_le : Q0 + k * Q1 ≤ N := by omega
  have hsum : N < (Q0 + k * Q1) + Q1 := by omega
  have hDk_pos : 0 < Q0 + k * Q1 := by
    rcases Nat.eq_zero_or_pos Q0 with h0 | h0
    · have hk1 : 1 ≤ k := by
        rw [hk, h0, Nat.sub_zero]
        exact (Nat.one_le_div_iff (by omega)).mpr hq1N
      have := Nat.mul_pos hk1 hq1
      omega
    · omega
  have hka : k < a := by
    by_contra hcon
    push_neg at hcon
    have := Nat.mul_le_mul_right Q1 hcon
    omega
  have hnad : a * d ≤ n := by
    rw [ha]; exact Nat.div_mul_le_self n d
  have hknd : k * d < n := by
    have h1 : k + 1 ≤ a := hka
    have h2 : (k + 1) * d ≤ a * d := Nat.mul_le_mul_right d h1
    have h3 : (k + 1) * d = k * d + d := by ring
    omega
  -- rational-level facts
  have hQ1Q : (0 : ℚ) < ((Q1 : ℕ) : ℚ) := by exact_mod_cast hq1
  have hDkQ : (0 : ℚ) < ((Q0 + k * Q1 : ℕ) : ℚ) := by exact_mod_cast hDk_pos
  have hdQ : (0 : ℚ) < (d : ℚ) := by exact_mod_cast hd
  have hnkdQ : (0 : ℚ) < (n : ℚ) - (k : ℚ) * (d : ℚ) := by
    have : (k * d : ℕ) < n := hknd
    have h2 : ((k * d : ℕ) : ℚ) < (n : ℚ) := by exact_mod_cast this
    push_cast at h2
    linarith
  have hD : (0 : ℚ) < (Q1 : ℚ) * (n : ℚ) + (Q0 : ℚ) * (d : ℚ) := by
    have hnQ : (0 : ℚ) < (n : ℚ) := by exact_mod_cast hn
    have h1 : (0 : ℚ) < (Q1 : ℚ) * (n : ℚ) := by positivity
    have h2 : (0 : ℚ) ≤ (Q0 : ℚ) * (d : ℚ) := by positivity
    linarith
  have hden1 : (((P0 + (k : ℤ) * P1 : ℤ) : ℚ) / ((Q0 + k * Q1 : ℕ) : ℚ)).den ≤ N :=
    le_trans (den_div_le _ _ hDk_pos) hDk_le
  have hden2 : ((P1 : ℚ) / ((Q1 : ℕ) : ℚ)).den ≤ N := le_trans (den_div_le _ _ hq1) hq1N
  refine ⟨hden1, hden2, ?_⟩
  rcases hdet with hd1 | hd1
  · -- determinant +1 : bound1 < x < bound2
    have hdetQ : (P1 : ℚ) * (Q0 : ℚ) - (P0 : ℚ) * (Q1 : ℚ) = 1 := by exact_mod_cast hd1
    have key2 : ((P1 : ℚ) - x * (Q1 : ℚ)) * ((Q1 : ℚ) * n + (Q0 : ℚ) * d) = (d : ℚ) := by
      linear_combination (-(Q1 : ℚ)) * hval + (d : ℚ) * hdetQ
    have key1 : (x * ((Q0 : ℚ) + (k : ℚ) * (Q1 : ℚ)) - ((P0 : ℚ) + (k : ℚ) * (P1 : ℚ)))
        * ((Q1 : ℚ) * n + (Q0 : ℚ) * d) = (n : ℚ) - (k : ℚ) * (d : ℚ) := by
      linear_combination ((Q0 : ℚ) + (k : ℚ) * (Q1 : ℚ)) * hval
        + ((n : ℚ) - (k : ℚ) * (d : ℚ)) * hdetQ
    have hxc2 : x < (P1 : ℚ) / ((Q1 : ℕ) : ℚ) := by
      rw [lt_div_iff hQ1Q]
      have h6 : (0 : ℚ) < ((P1 : ℚ) - x * (Q1 : ℚ)) * ((Q1 : ℚ) * n + (Q0 : ℚ) * d) := by
        rw [key2]; exact hdQ
      rcases mul_pos_iff.mp h6 with ⟨h7, _⟩ | ⟨_, h8⟩
      · linarith
      · linarith
    have hc1x : ((P0 + (k : ℤ) * P1 : ℤ) : ℚ) / ((Q0 + k * Q1 : ℕ) : ℚ) < x := by
      rw [div_lt_iff hDkQ]
      have hc : ((Q0 + k * Q1 : ℕ) : ℚ) = (Q0 : ℚ) + (k : ℚ) * (Q1 : ℚ) := by push_cast; ring
      have hc' : ((P0 + (k : ℤ) * P1 : ℤ) : ℚ) = (P0 : ℚ) + (k : ℚ) * (P1 : ℚ) := by
        push_cast; ring
      rw [hc, hc']
      have h6 : (0 : ℚ) <
          (x * ((Q0 : ℚ) + (k : ℚ) * (Q1 : ℚ)) - ((P0 : ℚ) + (k : ℚ) * (P1 : ℚ)))
            * ((Q1 : ℚ) * n + (Q0 : ℚ) * d) := by
        rw [key1]; exact hnkdQ
      rcases mul_pos_iff.mp h6 with ⟨h7, _⟩ | ⟨_, h8⟩
      · linarith
      · linarith
    have hdet' : P1 * ((Q0 + k * Q1 : ℕ) : ℤ) - (P0 + (k : ℤ) * P1) * ((Q1 : ℕ) : ℤ) = 1 := by
      push_cast
      linear_combination hd1
    intro y hy
    exact closest_of_bracket x N (P0 + (k : ℤ) * P1) P1 (Q0 + k * Q1) Q1 hDk_pos hq1 hsum
      hdet' (le_of_lt hc1x) (le_of_lt hxc2) y hy
  · -- determinant -1 : bound2 < x < bound1
    have hdetQ : (P1 : ℚ) * (Q0 : ℚ) - (P0 : ℚ) * (Q1 : ℚ) = -1 := by exact_mod_cast hd1
    have key2 : (x * (Q1 : ℚ) - (P1 : ℚ)) * ((Q1 : ℚ) * n + (Q0 : ℚ) * d) = (d : ℚ) := by
      linear_combination (Q1 : ℚ) * hval + (-(d : ℚ)) * hdetQ
    have key1 : (((P0 : ℚ) + (k : ℚ) * (P1 : ℚ)) - x * ((Q0 : ℚ) + (k : ℚ) * (Q1 : ℚ)))
        * ((Q1 : ℚ) * n + (Q0 : ℚ) * d) = (n : ℚ) - (k : ℚ) * (d : ℚ) := by
      linear_combination (-((Q0 : ℚ) + (k : ℚ) * (Q1 : ℚ))) * hval
        + (-((n : ℚ) - (k : ℚ) * (d : ℚ))) * hdetQ
    have hc2x : (P1 : ℚ) / ((Q1 : ℕ) : ℚ) < x := by
      rw [div_lt_iff hQ1Q]
      have h6 : (0 : ℚ) < (x * (Q1 : ℚ) - (P1 : ℚ)) * ((Q1 : ℚ) * n + (Q0 : ℚ) * d) := by
        rw [key2]; exact hdQ
      rcases mul_pos_iff.mp h6 with ⟨h7, _⟩ | ⟨_, h8⟩
      · linarith
      · linarith
    have hxc1 : x < ((P0 + (k : ℤ) * P1 : ℤ) : ℚ) / ((Q0 + k * Q1 : ℕ) : ℚ) := by
      rw [lt_div_iff hDkQ]
      have hc : ((Q0 + k * Q1 : ℕ) : ℚ) = (Q0 : ℚ) + (k : ℚ) * (Q1 : ℚ) := by push_cast; ring
      have hc' : ((P0 + (k : ℤ) * P1 : ℤ) : ℚ) = (P0 : ℚ) + (k : ℚ) * (P1 : ℚ) := by
        push_cast; ring
      rw [hc, hc']
      have h6 : (0 : ℚ) <
          (((P0 : ℚ) + (k : ℚ) * (P1 : ℚ)) - x * ((Q0 : ℚ) + (k : ℚ) * (Q1 : ℚ)))
            * ((Q1 : ℚ) * n + (Q0 : ℚ) * d) := by
        rw [key1]; exact hnkdQ
      rcases mul_pos_iff.mp h6 with ⟨h7, _⟩ | ⟨_, h8⟩
      · linarith
      · linarith
    have hdet' : (P0 + (k : ℤ) * P1) * ((Q1 : ℕ) : ℤ) - P1 * ((Q0 + k * Q1 : ℕ) : ℤ) = 1 := by
      push_cast
      linear_combination -hd1
    intro y hy
    have h := closest_of_bracket x N P1 (P0 + (k : ℤ) * P1) Q1 (Q0 + k * Q1) hq1 hDk_pos
      (by omega) hdet' (le_of_lt hc2x) (le_of_lt hxc1) y hy
    rw [min_comm] at h
    exact h

/-- Correctness of the embedded `Fraction.limit_denominator`: for a bound
of at least 1 it returns (never raises) a rational whose denominator is
within the bound and which is at least as close to the input as every
rational within the bound. -/
theorem limit_denominator_spec (x : ℚ) (N : ℕ) (hN : 1 ≤ N) :
    ∃ r : ℚ, limit_denominator x N = some r ∧ r.den ≤ N ∧
      ∀ y : ℚ, y.den ≤ N → |x - r| ≤ |x - y| := by
  by_cases hxd : x.den ≤ N
  · refine ⟨x, ?_, hxd, ?_⟩
    · unfold limit_denominator
      rw [if_neg (by omega : ¬ N = 0), if_pos hxd]
    · intro y hy
      simp only [sub_self, abs_zero]
      exact abs_nonneg (x - y)
  · push_neg at hxd
    obtain ⟨P0, Q0, P1, Q1, n, d, heq, hinv, hdpos, hbrk⟩ :=
      ldLoopF_spec x N hxd ((x.num - ⌊x⌋ * x.den).toNat + 1) 1 0 ⌊x⌋ 1 x.den
        ((x.num - ⌊x⌋ * x.den).toNat) (Nat.lt_succ_self _) (ldInv_init x N hN hxd)
    obtain ⟨hden1, hden2, hclose⟩ := ld_break_closest x N P0 Q0 P1 Q1 n d hinv hdpos hbrk
    set c1 : ℚ := ((P0 + (((N - Q0) / Q1 : ℕ) : ℤ) * P1 : ℤ) : ℚ)
        / ((Q0 + ((N - Q0) / Q1) * Q1 : ℕ) : ℚ) with hc1
    set c2 : ℚ := (P1 : ℚ) / ((Q1 : ℕ) : ℚ) with hc2
    have hld : limit_denominator x N =
        if |c2 - x| ≤ |c1 - x| then some c2 else some c1 := by
      unfold limit_denominator
      rw [if_neg (by omega : ¬ N = 0), if_neg (by omega : ¬ x.den ≤ N), heq]
    by_cases hcmp : |c2 - x| ≤ |c1 - x|
    · refine ⟨c2, ?_, hden2, ?_⟩
      · rw [hld, if_pos hcmp]
      · intro y hy
        have hmin : min |x - c1| |x - c2| = |x - c2| := by
          rw [abs_sub_comm x c1, abs_sub_comm x c2]
          exact min_eq_right hcmp
        calc |x - c2| = min |x - c1| |x - c2| := hmin.symm
          _ ≤ |x - y| := hclose y hy
    · refine ⟨c1, ?_, hden1, ?_⟩
      · rw [hld, if_neg hcmp]
      · intro y hy
        push_neg at hcmp
        have hmin : min |x - c1| |x - c2| = |x - c1| := by
          rw [abs_sub_comm x c1, abs_sub_comm x c2]
          exact min_eq_left (le_of_lt hcmp)
        calc |x - c1| = min |x - c1| |x - c2| := hmin.symm
          _ ≤ |x - y| := hclose y hy

end OpenSenseCam

namespace OpenSenseCam

/-- `_rat` on an integer value returns the pair `(z, 1)` whenever the
bound is at least 1 (the denominator `1` is already within the bound). -/
theorem _rat_intCast (z : ℤ) (N : ℕ) (hN : 1 ≤ N) : _rat ((z : ℤ) : ℚ) N = some (z, 1) := by
  rw [_rat]
  have hden : ((z : ℤ) : ℚ).den = 1 := Rat.den_intCast z
  have h : limit_denominator ((z : ℤ) : ℚ) N = some ((z : ℤ) : ℚ) := by
    unfold limit_denominator
    rw [if_neg (by omega : ¬ N = 0), if_pos (by omega : ((z : ℤ) : ℚ).den ≤ N)]
  rw [h]
  simp [Rat.num_intCast, hden]

/-- `_rat` on a natural-number value returns the pair `(m, 1)`. -/
theorem _rat_natCast (m : ℕ) (N : ℕ) (hN : 1 ≤ N) :
    _rat ((m : ℕ) : ℚ) N = some (((m : ℕ) : ℤ), 1) := by
  have h : ((m : ℕ) : ℚ) = (((m : ℕ) : ℤ) : ℚ) := by push_cast; ring
  rw [h]
  exact _rat_intCast _ N hN

/-- `_deg_to_dms` never raises, and its first two slots are the exact
whole degrees and whole minutes of the decomposition. -/
theorem _deg_to_dms_spec (x : ℚ) :
    ∃ p : ℤ, ∃ q : ℕ,
      _deg_to_dms x = some (((⌊|x|⌋ : ℤ), 1), ((⌊(|x| - (⌊|x|⌋ : ℚ)) * 60⌋ : ℤ), 1), (p, q))
      ∧ 0 < q ∧ q ≤ 1000000
      ∧ ∀ y : ℚ, y.den ≤ 1000000 → |secondsOf x - (p : ℚ) / (q : ℚ)| ≤ |secondsOf x - y| := by
  obtain ⟨r, hr, hrden, hrclose⟩ := limit_denominator_spec (secondsOf x) 1000000 (by norm_num)
  have h1 : _rat ((⌊|x|⌋ : ℤ) : ℚ) 1000000 = some (⌊|x|⌋, 1) :=
    _rat_intCast _ _ (by norm_num)
  have h2 : _rat ((⌊(|x| - (⌊|x|⌋ : ℚ)) * 60⌋ : ℤ) : ℚ) 1000000 =
      some (⌊(|x| - (⌊|x|⌋ : ℚ)) * 60⌋, 1) := _rat_intCast _ _ (by norm_num)
  have h3 : _rat (secondsOf x) 1000000 = some (r.num, r.den) := by
    rw [_rat, hr]; rfl
  rw [secondsOf] at h3
  refine ⟨r.num, r.den, ?_, r.pos, hrden, ?_⟩
  · rw [_deg_to_dms]
    rw [h1, h2, h3]
    rfl
  · intro y hy
    rw [Rat.num_div_den]
    exact hrclose y hy

end OpenSenseCam

namespace OpenSenseCam

/-! ## Claim theorems -/

/-- C8: for every finite value and every positive maxDenominator bound,
`toRational` (`_rat`) returns — without failing — a pair whose
denominator is positive and at most the bound, and whose value is at
least as close to the input as every rational with denominator within
the bound (continued-fraction best approximation); determinism holds
because `_rat` is a pure function of its arguments. -/
theorem C8_toRational_best_approximation (x : ℚ) (N : ℕ) (hN : 1 ≤ N) :
    ∃ p : ℤ, ∃ q : ℕ, _rat x N = some (p, q) ∧ 0 < q ∧ q ≤ N ∧
      ∀ y : ℚ, y.den ≤ N → |x - (p : ℚ) / (q : ℚ)| ≤ |x - y| := by
  obtain ⟨r, hr, hrden, hrclose⟩ := limit_denominator_spec x N hN
  refine ⟨r.num, r.den, ?_, r.pos, hrden, ?_⟩
  · rw [_rat, hr]; rfl
  · intro y hy
    rw [Rat.num_div_den]
    exact hrclose y hy

/-- Witness for C8 at the concrete input `1/3` with bound `2`. -/
theorem C8_toRational_best_approximation_witness :
    ∃ p : ℤ, ∃ q : ℕ, _rat (mkRat 1 3) 2 = some (p, q) ∧ 0 < q ∧ q ≤ 2 ∧
      ∀ y : ℚ, y.den ≤ 2 → |mkRat 1 3 - (p : ℚ) / (q : ℚ)| ≤ |mkRat 1 3 - y| :=
  C8_toRational_best_approximation (mkRat 1 3) 2 (by norm_num)

/-- C9: `get_fix` on the freshly initialised registry (on which no
publish has ever run) returns `None`, never a default or garbage fix. -/
theorem C9_snapshot_before_publish_absent : get_fix SharedState.init = none := rfl

/-- C2 (code bug): publishing any candidate to a registry that holds no
fix does not store the candidate — line 164 dereferences
`self._latest_fix.fix_quality` on `None` and raises `AttributeError`,
contrary to the claim that a missing held fix is treated as quality
below any real fix. -/
theorem C2_first_publish_raises :
    set_fix SharedState.init ⟨4, 0⟩ = Except.error PyErr.attributeError := rfl

/-- C1 (code bug): the arbitration in `set_fix` is inverted relative to
the claim.  A candidate of higher quality than the held fix is
discarded, an equal-quality candidate is discarded (the claim's
recency tie-break would replace), and only a strictly lower-quality
candidate replaces the held fix — so a snapshot after a publish
sequence holds a minimal-quality fix, not the maximal one. -/
theorem C1_arbitration_inverted :
    set_fix (some ⟨1, 0⟩) ⟨2, 1⟩ = Except.ok (some ⟨1, 0⟩)
    ∧ set_fix (some ⟨2, 0⟩) ⟨2, 1⟩ = Except.ok (some ⟨2, 0⟩)
    ∧ set_fix (some ⟨3, 0⟩) ⟨1, 1⟩ = Except.ok (some ⟨1, 1⟩)
    ∧ get_fix (some ⟨1, 0⟩) = some ⟨1, 0⟩ :=
  ⟨rfl, rfl, rfl, rfl⟩

/-- C5 counterexample: with the camera handle unavailable and the stop
event not yet set, two loop iterations produce two `"[Camera] No
camera found.."` log events — the loop neither logs exactly once nor
exits. -/
theorem C5_counterexample_loop_keeps_logging :
    cameraRunEvents false 2 = [CamEvent.noCameraLog, CamEvent.noCameraLog]
    ∧ (cameraRunEvents false 2).count CamEvent.noCameraLog ≠ 1 := by
  constructor
  · rfl
  · decide

/-- C5 amended: with the camera handle unavailable, the capture loop
logs the no-camera condition once per cycle and keeps iterating until
a stop is requested — it runs one full iteration per un-stopped cycle
and never exits on its own. -/
theorem C5_amended_logs_every_cycle (n : ℕ) :
    (cameraRunEvents false n).count CamEvent.noCameraLog = n
    ∧ (cameraRunEvents false n).length = n := by
  induction n with
  | zero => exact ⟨rfl, rfl⟩
  | succ n ih =>
    refine ⟨?_, ?_⟩
    · rw [cameraRunEvents, List.count_cons]
      simp [cameraIteration, ih.1]
    · rw [cameraRunEvents, List.length_cons, ih.2]

/-- C6 counterexample: with a configured interval of 10 and an elapsed
capture time of 3, the loop sleeps the full 10 (from
`self._stop.wait(self.interval)`), not the claimed clamped remainder
`max (10 - 3) 0 = 7`. -/
theorem C6_counterexample_sleep_full_interval :
    cycleSleep 10 3 = 10
    ∧ max ((10 : ℚ) - 3) 0 = 7
    ∧ cycleSleep 10 3 ≠ max ((10 : ℚ) - 3) 0 := by
  refine ⟨rfl, by norm_num, ?_⟩
  rw [cycleSleep]
  norm_num

/-- C6 amended: the end-of-cycle sleep is always the full configured
interval, independent of the elapsed capture time, so each cycle's
capture cost shifts every later cycle: the `n`-th cycle starts at
`n * interval` plus the sum of all earlier capture times (drift
accumulates without bound instead of being absorbed within one
cycle). -/
theorem C6_amended_drift_accumulates (interval : ℚ) (elapsed : ℕ → ℚ) (n : ℕ) :
    cycleSleep interval (elapsed n) = interval
    ∧ cycleStart interval elapsed n
        = n * interval + ∑ i ∈ Finset.range n, elapsed i := by
  refine ⟨rfl, ?_⟩
  induction n with
  | zero => simp [cycleStart]
  | succ n ih =>
    rw [cycleStart, ih, cycleSleep, Finset.sum_range_succ]
    push_cast
    ring

end OpenSenseCam

namespace OpenSenseCam

/-- C7: for every decimal-degree value, `_deg_to_dms` decomposes the
absolute value into whole degrees `⌊|x|⌋`, whole minutes
`⌊(|x| - ⌊|x|⌋) * 60⌋`, and the remaining seconds with fractional
part, each rational-encoded (the integer slots exactly, the seconds
slot as the best rational with denominator within 1,000,000); in
particular `_deg_to_dms 0` is all zeros and `_deg_to_dms (-33.865)`
gives degrees 33, minutes 51, seconds 54. -/
theorem C7_deg_to_dms_decomposition :
    (∀ x : ℚ, ∃ p : ℤ, ∃ q : ℕ,
        _deg_to_dms x
          = some (((⌊|x|⌋ : ℤ), 1), ((⌊(|x| - (⌊|x|⌋ : ℚ)) * 60⌋ : ℤ), 1), (p, q))
        ∧ 0 < q ∧ q ≤ 1000000
        ∧ ∀ y : ℚ, y.den ≤ 1000000 → |secondsOf x - (p : ℚ) / (q : ℚ)| ≤ |secondsOf x - y|)
    ∧ _deg_to_dms 0 = some ((0, 1), (0, 1), (0, 1))
    ∧ _deg_to_dms (mkRat (-6773) 200) = some ((33, 1), (51, 1), (54, 1)) :=
  ⟨_deg_to_dms_spec, by decide, by decide⟩

/-- C10: `make_exif` is not determined by its `(timestamp, fix)`
arguments: the `fix` parameter is never read (replacing it changes
nothing), while changing only the ambient global receiver state
between two calls with identical arguments changes the positioning
group from empty to non-empty. -/
theorem C10_make_exif_not_determined_by_arguments :
    (∀ (ts : DateTimeVal) (f1 f2 : Option GpsFix) (g : Globals),
        make_exif ts f1 g = make_exif ts f2 g)
    ∧ (make_exif ⟨2026, 1, 2, 3, 4, 5⟩ (some ⟨4, 0⟩)
          ⟨false, ⟨none, none, none, none⟩, ⟨2026, 1, 2⟩⟩).map ExifDict.gps
        = Except.ok emptyGPS
    ∧ (make_exif ⟨2026, 1, 2, 3, 4, 5⟩ (some ⟨4, 0⟩)
          ⟨true, ⟨some 0, some 0, none, some ⟨10, 30, 0⟩⟩, ⟨2026, 1, 2⟩⟩).map ExifDict.gps
        ≠ Except.ok emptyGPS := by
  refine ⟨fun ts f1 f2 g => rfl, by decide, by decide⟩

/-- C4 counterexample: `make_exif` called with `fix = None` but with the
ambient receiver reporting a position produces a tag whose positioning
group is populated (latitude tag present), because the positioning
group is driven by the global receiver object, not by the `fix`
argument. -/
theorem C4_counterexample_absent_fix_positioning_present :
    (make_exif ⟨2026, 1, 2, 3, 4, 5⟩ none
        ⟨true, ⟨some 0, some 0, none, some ⟨0, 0, 0⟩⟩, ⟨2026, 1, 2⟩⟩).map
      (fun e => e.gps.latitude)
      = Except.ok (some ((0, 1), (0, 1), (0, 1)))
    ∧ (some ((0, 1), (0, 1), (0, 1)) : Option (RatPair × RatPair × RatPair)) ≠ none :=
  ⟨by decide, by decide⟩

/-- C4 amended: when the receiver stack is unavailable or the receiver
reports no latitude, `make_exif` — with any `fix` argument, absent
ones included — succeeds and returns the base tag: its positioning
group is empty and its image-info group (datetime, make, model,
software) is populated. -/
theorem C4_amended_no_positioning_without_receiver_data (ts : DateTimeVal)
    (fx : Option GpsFix) (g : Globals)
    (h : g.gpsAvailable = false ∨ g.gps.latitude = none) :
    make_exif ts fx g = Except.ok (baseExif ts)
    ∧ (baseExif ts).gps = emptyGPS
    ∧ (baseExif ts).zeroth.dateTime = some ts
    ∧ (baseExif ts).zeroth.make = some "Raspberry Pi" := by
  refine ⟨?_, rfl, rfl, rfl⟩
  rcases h with h | h
  · rw [make_exif, h]
    simp
  · by_cases hav : g.gpsAvailable
    · rw [make_exif, hav, h]
      simp
    · rw [make_exif]
      simp [hav]

/-- Witness for the amended C4 at a concrete timestamp with the
receiver stack absent. -/
theorem C4_amended_witness :
    make_exif ⟨2026, 1, 2, 3, 4, 5⟩ none ⟨false, ⟨none, none, none, none⟩, ⟨1999, 12, 31⟩⟩
      = Except.ok (baseExif ⟨2026, 1, 2, 3, 4, 5⟩)
    ∧ (baseExif ⟨2026, 1, 2, 3, 4, 5⟩).gps = emptyGPS
    ∧ (baseExif ⟨2026, 1, 2, 3, 4, 5⟩).zeroth.dateTime = some ⟨2026, 1, 2, 3, 4, 5⟩
    ∧ (baseExif ⟨2026, 1, 2, 3, 4, 5⟩).zeroth.make = some "Raspberry Pi" :=
  C4_amended_no_positioning_without_receiver_data ⟨2026, 1, 2, 3, 4, 5⟩ none
    ⟨false, ⟨none, none, none, none⟩, ⟨1999, 12, 31⟩⟩ (Or.inl rfl)

end OpenSenseCam

namespace OpenSenseCam

/-- C3 counterexample: with the receiver supplying a timestamp
(`tm 10:30:00`), the `GPSDateStamp` written by `make_exif` is the
ambient UTC wall-clock date at tag-build time — two calls identical
except for the wall clock get two different positioning dates — and
with the receiver supplying no timestamp the call raises
`AttributeError` instead of omitting the positioning timestamp
fields. -/
theorem C3_counterexample_wall_clock_in_datestamp :
    (make_exif ⟨2026, 1, 2, 3, 4, 5⟩ (some ⟨4, 0⟩)
        ⟨true, ⟨some 0, some 0, none, some ⟨10, 30, 0⟩⟩, ⟨2026, 1, 2⟩⟩).map
      (fun e => e.gps.dateStamp) = Except.ok (some ⟨2026, 1, 2⟩)
    ∧ (make_exif ⟨2026, 1, 2, 3, 4, 5⟩ (some ⟨4, 0⟩)
        ⟨true, ⟨some 0, some 0, none, some ⟨10, 30, 0⟩⟩, ⟨1999, 12, 31⟩⟩).map
      (fun e => e.gps.dateStamp) = Except.ok (some ⟨1999, 12, 31⟩)
    ∧ (⟨2026, 1, 2⟩ : DateVal) ≠ ⟨1999, 12, 31⟩
    ∧ make_exif ⟨2026, 1, 2, 3, 4, 5⟩ (some ⟨4, 0⟩)
        ⟨true, ⟨some 0, some 0, none, none⟩, ⟨2026, 1, 2⟩⟩
      = Except.error PyErr.attributeError :=
  ⟨by decide, by decide, by decide, by decide⟩

/-- C3 amended: when the receiver reports a position and supplies a
timestamp, `make_exif` succeeds; the `GPSTimeStamp` hour/minute/second
are taken from the receiver-supplied timestamp, but the `GPSDateStamp`
is the ambient UTC wall-clock date at tag-build time (not derived from
the receiver timestamp); when the receiver supplies no timestamp the
call raises `AttributeError` rather than omitting the fields. -/
theorem C3_amended_positioning_timestamp_source (ts : DateTimeVal) (fx : Option GpsFix)
    (g : Globals) (lat lon : ℚ) (t : TimeTriple)
    (hav : g.gpsAvailable = true) (hlat : g.gps.latitude = some lat)
    (hlon : g.gps.longitude = some lon) (ht : g.gps.timestamp_utc = some t) :
    ∃ e, make_exif ts fx g = Except.ok e
      ∧ e.gps.dateStamp = some g.nowUtc
      ∧ e.gps.timeStamp
          = some (((t.h : ℤ), 1), ((t.m : ℤ), 1), ((t.s : ℤ), 1)) := by
  obtain ⟨p1, q1, hd1, _⟩ := _deg_to_dms_spec lat
  obtain ⟨p2, q2, hd2, _⟩ := _deg_to_dms_spec lon
  have hh := _rat_natCast t.h 1000000 (by norm_num)
  have hm := _rat_natCast t.m 1000000 (by norm_num)
  have hs := _rat_natCast t.s 1000000 (by norm_num)
  rcases halt : g.gps.altitude_m with _ | alt
  · have hrun : make_exif ts fx g = Except.ok
        { baseExif ts with gps :=
          { emptyGPS with
            latitudeRef := some (if 0 ≤ lat then "N" else "S")
            latitude := some ((⌊|lat|⌋, 1), (⌊(|lat| - (⌊|lat|⌋ : ℚ)) * 60⌋, 1), (p1, q1))
            longitudeRef := some (if 0 ≤ lon then "E" else "W")
            longitude := some ((⌊|lon|⌋, 1), (⌊(|lon| - (⌊|lon|⌋ : ℚ)) * 60⌋, 1), (p2, q2))
            dateStamp := some g.nowUtc
            timeStamp := some (((t.h : ℤ), 1), ((t.m : ℤ), 1), ((t.s : ℤ), 1)) } } := by
      simp only [make_exif, hav, hlat, hlon, ht, halt, hd1, hd2, hh, hm, hs, exceptOf,
        if_true, bind, Except.bind, pure, Except.pure]
    exact ⟨_, hrun, rfl, rfl⟩
  · obtain ⟨r, hr, _, _⟩ := limit_denominator_spec |alt| 1000 (by norm_num)
    have hra : _rat |alt| 1000 = some (r.num, r.den) := by rw [_rat, hr]; rfl
    have hrun : make_exif ts fx g = Except.ok
        { baseExif ts with gps :=
          { emptyGPS with
            latitudeRef := some (if 0 ≤ lat then "N" else "S")
            latitude := some ((⌊|lat|⌋, 1), (⌊(|lat| - (⌊|lat|⌋ : ℚ)) * 60⌋, 1), (p1, q1))
            longitudeRef := some (if 0 ≤ lon then "E" else "W")
            longitude := some ((⌊|lon|⌋, 1), (⌊(|lon| - (⌊|lon|⌋ : ℚ)) * 60⌋, 1), (p2, q2))
            altitudeRef := some (if 0 ≤ alt then 0 else 1)
            altitude := some (r.num, r.den)
            dateStamp := some g.nowUtc
            timeStamp := some (((t.h : ℤ), 1), ((t.m : ℤ), 1), ((t.s : ℤ), 1)) } } := by
      simp only [make_exif, hav, hlat, hlon, ht, halt, hra, hd1, hd2, hh, hm, hs, exceptOf,
        if_true, bind, Except.bind, pure, Except.pure]
    exact ⟨_, hrun, rfl, rfl⟩

/-- Witness for the amended C3 at a concrete receiver state. -/
theorem C3_amended_witness :
    ∃ e, make_exif ⟨2026, 1, 2, 3, 4, 5⟩ none
        ⟨true, ⟨some 0, some 0, none, some ⟨10, 30, 0⟩⟩, ⟨2026, 1, 2⟩⟩ = Except.ok e
      ∧ e.gps.dateStamp = some ⟨2026, 1, 2⟩
      ∧ e.gps.timeStamp
          = some ((((10 : ℕ) : ℤ), 1), (((30 : ℕ) : ℤ), 1), (((0 : ℕ) : ℤ), 1)) :=
  C3_amended_positioning_timestamp_source ⟨2026, 1, 2, 3, 4, 5⟩ none
    ⟨true, ⟨some 0, some 0, none, some ⟨10, 30, 0⟩⟩, ⟨2026, 1, 2⟩⟩ 0 0 ⟨10, 30, 0⟩
    rfl rfl rfl rfl

end OpenSenseCam

namespace OpenSenseCam

/-- Witness for the amended C5 at three un-stopped cycles. -/
theorem C5_amended_witness :
    (cameraRunEvents false 3).count CamEvent.noCameraLog = 3
    ∧ (cameraRunEvents false 3).length = 3 :=
  C5_amended_logs_every_cycle 3

/-- Witness for the amended C6: interval 10, capture cost 3 per cycle,
third cycle starts at 26 = 2*10 + 3 + 3, not at 20. -/
theorem C6_amended_witness :
    cycleSleep 10 ((fun _ => (3 : ℚ)) 2) = 10
    ∧ cycleStart 10 (fun _ => (3 : ℚ)) 2
        = (2 : ℕ) * 10 + ∑ i ∈ Finset.range 2, (fun _ => (3 : ℚ)) i :=
  C6_amended_drift_accumulates 10 (fun _ => (3 : ℚ)) 2

end OpenSenseCam
